import Mathlib

/-!
Verification of the saju four-pillar engine.

The Lean definitions below are a shallow embedding of the Rust sources:
`src/bazi.rs` (sexagenary arithmetic and strength assessment),
`src/luck.rs` (decennial and monthly luck), and the day-pillar assembly in
`src/main.rs`.  Machine integers (`i32`, `i64`, `u32`, `usize`) are embedded
as `Int`/`Nat` (no value in the verified claims approaches the overflow
range); Rust `rem_euclid` becomes `Int.emod`, Rust truncated `/` and `%` on
`i32` become `Int.tdiv`/`Int.tmod`; `f64` Julian dates are embedded as `Rat`
(the luck routines only compare, subtract, scale and round them).
`Option`/`Result` become `Option`/`Except`.
-/

namespace Saju

/-- Pillar record from `src/types.rs`: a (heavenly stem, earthly branch)
index pair. -/
structure Pillar where
  stem : Nat
  branch : Nat
deriving DecidableEq

instance : Inhabited Pillar := ⟨⟨0, 0⟩⟩

/-- `Direction` enum from `src/types.rs`. -/
inductive Direction where
  | Forward
  | Backward
deriving DecidableEq

/-- `Element` enum from `src/types.rs`. -/
inductive Element where
  | Wood
  | Fire
  | Earth
  | Metal
  | Water
deriving DecidableEq

/-- `Relation` enum from `src/types.rs`. -/
inductive Relation where
  | Same
  | Output
  | Wealth
  | Officer
  | Resource
deriving DecidableEq

/-- `StrengthClass` enum from `src/types.rs`. -/
inductive StrengthClass where
  | Strong
  | Weak
  | Neutral
deriving DecidableEq

/-- `StrengthVerdict` enum from `src/types.rs`. -/
inductive StrengthVerdict where
  | Strong
  | Weak
  | Neutral
deriving DecidableEq

/-- `SolarTerm` from `src/types.rs`, projected to the two fields the luck
and month code reads: the term key (`t.def.key`) and the Julian date. -/
structure SolarTerm where
  key : String
  jd : Rat
deriving DecidableEq

instance : Inhabited SolarTerm := ⟨⟨"", 0⟩⟩

def key_lichun : String := "lichun"
def key_jingzhe : String := "jingzhe"
def key_qingming : String := "qingming"
def key_lixia : String := "lixia"
def key_mangzhong : String := "mangzhong"
def key_xiaoshu : String := "xiaoshu"
def key_liqiu : String := "liqiu"
def key_bailu : String := "bailu"
def key_hanlu : String := "hanlu"
def key_lidong : String := "lidong"
def key_daxue : String := "daxue"
def key_xiaohan : String := "xiaohan"
def key_yushui : String := "yushui"

/-- `HIDDEN_STEMS` table from `src/bazi.rs`. -/
def HIDDEN_STEMS : List (List Nat) :=
  [[9], [5, 9, 7], [0, 2, 4], [1], [4, 1, 9], [2, 4, 6],
   [3, 5], [5, 3, 1], [6, 8, 4], [7], [4, 7, 3], [8, 0]]

/-- `CHANGSHENG_START` table from `src/bazi.rs`. -/
def CHANGSHENG_START : List Nat := [11, 6, 2, 9, 2, 9, 5, 0, 8, 3]

/-- `year_pillar` from `src/bazi.rs`. -/
def year_pillar (year : Int) : Nat × Nat :=
  (((year - 4) % 10).toNat, ((year - 4) % 12).toNat)

/-- `month_branch_from_term_key` from `src/bazi.rs`. -/
def month_branch_from_term_key (key : String) : Option Nat :=
  match key with
  | "lichun" => some 2
  | "jingzhe" => some 3
  | "qingming" => some 4
  | "lixia" => some 5
  | "mangzhong" => some 6
  | "xiaoshu" => some 7
  | "liqiu" => some 8
  | "bailu" => some 9
  | "hanlu" => some 10
  | "lidong" => some 11
  | "daxue" => some 0
  | "xiaohan" => some 1
  | _ => none

/-- `month_stem_from_year` from `src/bazi.rs`. -/
def month_stem_from_year (year_stem month_branch : Nat) : Nat :=
  (year_stem * 2 + month_branch) % 10

/-- `jdn_from_date` from `src/bazi.rs` (Gregorian date to Julian Day
Number; Rust `i32` division truncates, hence `Int.tdiv`). -/
def jdn_from_date (year month day : Int) : Int :=
  let a := (14 - month).tdiv 12
  let y := year + 4800 - a
  let m := month + 12 * a - 3
  day + (153 * m + 2).tdiv 5 + 365 * y + y.tdiv 4 - y.tdiv 100 + y.tdiv 400 - 32045

/-- `day_pillar_from_jdn` from `src/bazi.rs`. -/
def day_pillar_from_jdn (jdn : Int) : Nat × Nat :=
  (((jdn + 9) % 10).toNat, ((jdn + 1) % 12).toNat)

/-- `hour_branch_index` from `src/bazi.rs`. -/
def hour_branch_index (hour minute : Nat) : Nat :=
  ((hour * 60 + minute + 60) / 120) % 12

/-- `hour_stem_from_day` from `src/bazi.rs`. -/
def hour_stem_from_day (day_stem hour_branch : Nat) : Nat :=
  (day_stem * 2 + hour_branch) % 10

/-- `stem_element` from `src/bazi.rs`. -/
def stem_element (stem : Nat) : Element :=
  match stem with
  | 0 | 1 => Element.Wood
  | 2 | 3 => Element.Fire
  | 4 | 5 => Element.Earth
  | 6 | 7 => Element.Metal
  | _ => Element.Water

/-- `branch_element` from `src/bazi.rs`. -/
def branch_element (branch : Nat) : Element :=
  match branch with
  | 0 => Element.Water
  | 1 => Element.Earth
  | 2 | 3 => Element.Wood
  | 4 => Element.Earth
  | 5 | 6 => Element.Fire
  | 7 => Element.Earth
  | 8 | 9 => Element.Metal
  | 10 => Element.Earth
  | _ => Element.Water

/-- `element_generates` from `src/bazi.rs`. -/
def element_generates (element : Element) : Element :=
  match element with
  | Element.Wood => Element.Fire
  | Element.Fire => Element.Earth
  | Element.Earth => Element.Metal
  | Element.Metal => Element.Water
  | Element.Water => Element.Wood

/-- `element_controls` from `src/bazi.rs`. -/
def element_controls (element : Element) : Element :=
  match element with
  | Element.Wood => Element.Earth
  | Element.Earth => Element.Water
  | Element.Water => Element.Fire
  | Element.Fire => Element.Metal
  | Element.Metal => Element.Wood

/-- `stem_polarity` from `src/bazi.rs` (true = yang). -/
def stem_polarity (stem : Nat) : Bool :=
  stem % 2 == 0

/-- `relation` from `src/bazi.rs`. -/
def relation (day target : Element) : Relation :=
  if day = target then Relation.Same
  else if element_generates day = target then Relation.Output
  else if element_controls day = target then Relation.Wealth
  else if element_generates target = day then Relation.Resource
  else Relation.Officer

/-- `hidden_stems` from `src/bazi.rs` (array indexing is total here via
`getD`; every call site uses a branch index below 12). -/
def hidden_stems (branch : Nat) : List Nat :=
  HIDDEN_STEMS.getD branch []

/-- `twelve_stage_index` from `src/bazi.rs`. -/
def twelve_stage_index (day_stem branch : Nat) : Nat :=
  let start := CHANGSHENG_START.getD day_stem 0
  if stem_polarity day_stem then (branch + 12 - start) % 12
  else (start + 12 - branch) % 12

/-- `stage_strength_class` from `src/bazi.rs`. -/
def stage_strength_class (stage_index : Nat) : StrengthClass :=
  if stage_index ≤ 4 then StrengthClass.Strong
  else if stage_index ≤ 9 then StrengthClass.Weak
  else StrengthClass.Neutral

/-- `element_index` from `src/bazi.rs`. -/
def element_index (element : Element) : Nat :=
  match element with
  | Element.Wood => 0
  | Element.Fire => 1
  | Element.Earth => 2
  | Element.Metal => 3
  | Element.Water => 4

/-- One `counts[i] += 1` step of `elements_count` in `src/bazi.rs`. -/
def bump (counts : List Nat) (i : Nat) : List Nat :=
  counts.set i (counts.getD i 0 + 1)

/-- `elements_count` from `src/bazi.rs`: per-element tally over the four
pillars (stem element then branch element of each pillar). -/
def elements_count (p0 p1 p2 p3 : Pillar) : List Nat :=
  [p0, p1, p2, p3].foldl
    (fun counts p =>
      bump (bump counts (element_index (stem_element p.stem)))
        (element_index (branch_element p.branch)))
    (List.replicate 5 0)

/-- The support side of the stem-relation match in `assess_strength`
(`Relation::Same | Relation::Resource`). -/
def is_support_rel (r : Relation) : Bool :=
  match r with
  | Relation.Same => true
  | Relation.Resource => true
  | _ => false

/-- The drain side of the stem-relation match in `assess_strength`
(`Relation::Output | Relation::Wealth | Relation::Officer`). -/
def is_drain_rel (r : Relation) : Bool :=
  match r with
  | Relation.Output => true
  | Relation.Wealth => true
  | Relation.Officer => true
  | _ => false

/-- The inline stage-bonus match inside `assess_strength`. -/
def stage_bonus_of (c : StrengthClass) : Int :=
  match c with
  | StrengthClass.Strong => 2
  | StrengthClass.Weak => -2
  | StrengthClass.Neutral => 0

/-- `StrengthResult` from `src/bazi.rs`. -/
structure StrengthResult where
  stage_index : Nat
  stage_class : StrengthClass
  root_count : Nat
  support_stems : Nat
  support_hidden : Nat
  drain_stems : Nat
  drain_hidden : Nat
  total : Int
  verdict : StrengthVerdict
deriving DecidableEq

/-- `assess_strength` from `src/bazi.rs`.  The Rust accumulation loop over
the four pillars is expressed with `countP`/`sum` over the same list. -/
def assess_strength (day_stem : Nat) (p0 p1 p2 p3 : Pillar) : StrengthResult :=
  let day_element := stem_element day_stem
  let pillars := [p0, p1, p2, p3]
  let stage_index := twelve_stage_index day_stem p1.branch
  let stage_class := stage_strength_class stage_index
  let root_count := pillars.countP
    (fun p => (hidden_stems p.branch).any (fun h => stem_element h == day_element))
  let support_stems := pillars.countP
    (fun p => is_support_rel (relation day_element (stem_element p.stem)))
  let drain_stems := pillars.countP
    (fun p => is_drain_rel (relation day_element (stem_element p.stem)))
  let support_hidden := (pillars.map
    (fun p => (hidden_stems p.branch).countP
      (fun h => is_support_rel (relation day_element (stem_element h))))).sum
  let drain_hidden := (pillars.map
    (fun p => (hidden_stems p.branch).countP
      (fun h => is_drain_rel (relation day_element (stem_element h))))).sum
  let stage_bonus := stage_bonus_of stage_class
  let support_total := (support_stems : Int) * 2 + (support_hidden : Int)
  let drain_total := (drain_stems : Int) * 2 + (drain_hidden : Int)
  let total := stage_bonus + (root_count : Int) + support_total - drain_total
  let verdict :=
    if total ≥ 3 then StrengthVerdict.Strong
    else if total ≤ -3 then StrengthVerdict.Weak
    else StrengthVerdict.Neutral
  ⟨stage_index, stage_class, root_count, support_stems, support_hidden,
    drain_stems, drain_hidden, total, verdict⟩

/-- The fold underlying Rust `Iterator::min_by` on solar terms compared by
`jd` (first of equally minimal elements is kept), as used in
`daewon_start_months` in `src/luck.rs`. -/
def min_by_jd (l : List SolarTerm) : Option SolarTerm :=
  l.foldl
    (fun acc t =>
      match acc with
      | none => some t
      | some m => if t.jd < m.jd then some t else some m)
    none

/-- The fold underlying Rust `Iterator::max_by` on solar terms compared by
`jd` (last of equally maximal elements is kept), as used in
`daewon_start_months` in `src/luck.rs`. -/
def max_by_jd (l : List SolarTerm) : Option SolarTerm :=
  l.foldl
    (fun acc t =>
      match acc with
      | none => some t
      | some m => if m.jd ≤ t.jd then some t else some m)
    none

/-- `daewon_start_months` from `src/luck.rs`.  Note: the filter is only on
`jd` relative to the birth instant; the term kind is never inspected. -/
def daewon_start_months (birth_jd : Rat)
    (terms_prev terms_curr terms_next : List SolarTerm)
    (direction : Direction) : Option Int :=
  let all_terms := terms_prev ++ terms_curr ++ terms_next
  let target :=
    match direction with
    | Direction.Forward => min_by_jd (all_terms.filter (fun t => decide (birth_jd < t.jd)))
    | Direction.Backward => max_by_jd (all_terms.filter (fun t => decide (t.jd < birth_jd)))
  target.map (fun t => round (abs (t.jd - birth_jd) / 3 * 12))

/-- One step of the stem/branch walk in `build_daewon_pillars`
(`src/luck.rs`): Rust `%` on `i32` is truncated (`tmod`), `rem_euclid`
is Euclidean (`emod`). -/
def daewon_step (direction : Direction) (stem branch : Int) : Int × Int :=
  match direction with
  | Direction.Forward => ((stem + 1).tmod 10, (branch + 1).tmod 12)
  | Direction.Backward => ((stem - 1) % 10, (branch - 1) % 12)

/-- The counted loop of `build_daewon_pillars` (`src/luck.rs`), carrying
the running stem/branch state. -/
def build_daewon_aux (direction : Direction) (stem branch : Int) : Nat → List Pillar
  | 0 => []
  | n + 1 =>
    let sb := daewon_step direction stem branch
    ⟨sb.1.toNat, sb.2.toNat⟩ :: build_daewon_aux direction sb.1 sb.2 n

/-- `build_daewon_pillars` from `src/luck.rs`. -/
def build_daewon_pillars (month_pillar : Pillar) (direction : Direction)
    (count : Nat) : List Pillar :=
  build_daewon_aux direction (month_pillar.stem : Int) (month_pillar.branch : Int) count

/-- `MonthLuck` from `src/luck.rs`. -/
structure MonthLuck where
  start_jd : Rat
  end_jd : Rat
  pillar : Pillar
  branch : Nat
deriving DecidableEq

/-- `MonthlyLuck` from `src/luck.rs`. -/
structure MonthlyLuck where
  year : Int
  year_pillar : Pillar
  months : List MonthLuck
deriving DecidableEq

def err_no_lichun_curr : String := "failed to find lichun term for monthly luck"
def err_no_lichun_next : String := "failed to find next lichun term for monthly luck"
def err_empty_boundaries : String := "failed to build monthly boundaries"
def err_insufficient : String := "monthly boundary count insufficient"
def err_invalid_boundary : String := "invalid month boundary for monthly luck"

/-- The `find lichun` probe of `src/luck.rs` (first term whose key is
`lichun`, projected to its jd). -/
def find_lichun (terms : List SolarTerm) : Option Rat :=
  (terms.find? (fun t => t.key == key_lichun)).map (fun t => t.jd)

/-- The boundary construction of `monthly_luck` (`src/luck.rs`): keep the
month-defining terms of the two years, sort by jd (Rust stable
`sort_by`), then keep those within the Lichun-to-Lichun window. -/
def month_defs_in_range (terms_curr terms_next : List SolarTerm)
    (lichun_curr lichun_next : Rat) : List SolarTerm :=
  (((terms_curr ++ terms_next).filter
      (fun t => (month_branch_from_term_key t.key).isSome)).mergeSort
    (fun a b => decide (a.jd ≤ b.jd))).filter
    (fun t => decide (lichun_curr ≤ t.jd) && decide (t.jd ≤ lichun_next))

/-- Rust `Iterator::position` specialised to the `lichun` key, as used by
the leading-boundary truncation in `monthly_luck`. -/
def position_lichun : List SolarTerm → Option Nat
  | [] => none
  | t :: rest =>
    if t.key == key_lichun then some 0
    else (position_lichun rest).map (fun i => i + 1)

/-- The leading-boundary truncation of `monthly_luck` (`src/luck.rs`):
if the first boundary is not Lichun, drop everything before the first
Lichun (keeping the list unchanged when no Lichun is present). -/
def drop_leading_non_lichun (l : List SolarTerm) : List SolarTerm :=
  match l with
  | [] => []
  | t :: _ =>
    if t.key == key_lichun then l
    else
      match position_lichun l with
      | some idx => l.drop idx
      | none => l

/-- The month-interval loop of `monthly_luck` (`src/luck.rs`), expressed
over the list of consecutive boundary pairs `(b[idx], b[idx+1])`. -/
def build_months (year_stem : Nat) :
    List (SolarTerm × SolarTerm) → Except String (List MonthLuck)
  | [] => Except.ok []
  | (s, e) :: rest =>
    match month_branch_from_term_key s.key with
    | none => Except.error err_invalid_boundary
    | some branch =>
      match build_months year_stem rest with
      | Except.error msg => Except.error msg
      | Except.ok ms =>
        Except.ok (⟨s.jd, e.jd, ⟨month_stem_from_year year_stem branch, branch⟩, branch⟩ :: ms)

/-- `monthly_luck` from `src/luck.rs`, parameterized by the solar-term
lists of years `Y` and `Y+1` (in the source these come from
`compute_solar_terms`, the floating-point astronomy engine). -/
def monthly_luck (year : Int) (terms_curr terms_next : List SolarTerm) :
    Except String MonthlyLuck :=
  match find_lichun terms_curr with
  | none => Except.error err_no_lichun_curr
  | some lichun_curr =>
    match find_lichun terms_next with
    | none => Except.error err_no_lichun_next
    | some lichun_next =>
      let filtered := month_defs_in_range terms_curr terms_next lichun_curr lichun_next
      if filtered.isEmpty then Except.error err_empty_boundaries
      else
        let boundaries := drop_leading_non_lichun filtered
        if boundaries.length < 13 then Except.error err_insufficient
        else
          match build_months (year_pillar year).1 ((boundaries.zip boundaries.tail).take 12) with
          | Except.error msg => Except.error msg
          | Except.ok months =>
            Except.ok ⟨year, ⟨(year_pillar year).1, (year_pillar year).2⟩, months⟩

/-- The i-th decennial pillar the spec formula predicts: the month pillar
stepped by `i + 1` with Euclidean modulus, forward or backward. -/
def daewon_expected (month_pillar : Pillar) (direction : Direction) (i : Nat) : Pillar :=
  match direction with
  | Direction.Forward =>
    ⟨(((month_pillar.stem : Int) + (i + 1)) % 10).toNat,
      (((month_pillar.branch : Int) + (i + 1)) % 12).toNat⟩
  | Direction.Backward =>
    ⟨(((month_pillar.stem : Int) - (i + 1)) % 10).toNat,
      (((month_pillar.branch : Int) - (i + 1)) % 12).toNat⟩

/-- The "nearest term in the given direction" predicate of the decennial
onset rule: strictly future and minimal for Forward, strictly past and
maximal for Backward. -/
def nearest_in_direction (birth_jd : Rat) (direction : Direction)
    (l : List SolarTerm) (t : SolarTerm) : Prop :=
  match direction with
  | Direction.Forward =>
    t ∈ l ∧ birth_jd < t.jd ∧ ∀ u ∈ l, birth_jd < u.jd → t.jd ≤ u.jd
  | Direction.Backward =>
    t ∈ l ∧ t.jd < birth_jd ∧ ∀ u ∈ l, u.jd < birth_jd → u.jd ≤ t.jd

/-- A concrete solar-term list for year Y with the twelve month-defining
terms at ascending integer JDs, used to exercise `monthly_luck`. -/
def witness_terms_curr : List SolarTerm :=
  [⟨key_lichun, 0⟩, ⟨key_jingzhe, 1⟩, ⟨key_qingming, 2⟩, ⟨key_lixia, 3⟩,
   ⟨key_mangzhong, 4⟩, ⟨key_xiaoshu, 5⟩, ⟨key_liqiu, 6⟩, ⟨key_bailu, 7⟩,
   ⟨key_hanlu, 8⟩, ⟨key_lidong, 9⟩, ⟨key_daxue, 10⟩, ⟨key_xiaohan, 11⟩]

/-- A concrete solar-term list for year Y+1 holding the next Lichun. -/
def witness_terms_next : List SolarTerm := [⟨key_lichun, 12⟩]

/-! ## Helper lemmas -/

theorem element_index_lt (e : Element) : element_index e < 5 := by
  cases e <;> decide

theorem sum_bump (l : List Nat) (i : Nat) (h : i < l.length) :
    (bump l i).sum = l.sum + 1 := by
  induction l generalizing i with
  | nil => simp at h
  | cons a t ih =>
    cases i with
    | zero => simp [bump, List.getD]; omega
    | succ n =>
      have hn : n < t.length := by simpa using h
      have := ih n hn
      simp only [bump, List.set, List.getD, List.get?] at *
      simp only [List.sum_cons]
      omega

theorem length_bump (l : List Nat) (i : Nat) : (bump l i).length = l.length := by
  simp [bump]

theorem support_drain_partition (r : Relation) :
    (if is_support_rel r then 1 else 0) + (if is_drain_rel r then 1 else 0) = 1 := by
  cases r <;> decide

theorem countP_support_drain (de : Element) (l : List Pillar) :
    l.countP (fun p => is_support_rel (relation de (stem_element p.stem)))
      + l.countP (fun p => is_drain_rel (relation de (stem_element p.stem)))
      = l.length := by
  induction l with
  | nil => simp
  | cons p t ih =>
    simp only [List.countP_cons, List.length_cons]
    have := support_drain_partition (relation de (stem_element p.stem))
    omega

theorem build_daewon_aux_length (direction : Direction) :
    ∀ (n : Nat) (s b : Int), (build_daewon_aux direction s b n).length = n := by
  intro n
  induction n with
  | zero => intro s b; rfl
  | succ k ih =>
    intro s b
    simp only [build_daewon_aux, List.length_cons]
    rw [ih]

theorem build_daewon_aux_getD (direction : Direction) :
    ∀ (n : Nat) (s b : Int), 0 ≤ s → s < 10 → 0 ≤ b → b < 12 →
      ∀ i, i < n →
        (build_daewon_aux direction s b n).getD i default =
          daewon_expected ⟨s.toNat, b.toNat⟩ direction i := by
  intro n
  induction n with
  | zero => intro s b _ _ _ _ i hi; omega
  | succ k ih =>
    intro s b hs0 hs1 hb0 hb1 i hi
    cases direction with
    | Forward =>
      have hstep : daewon_step Direction.Forward s b = ((s + 1) % 10, (b + 1) % 12) := by
        simp only [daewon_step]
        rw [Int.tmod_eq_emod (by omega) (by omega), Int.tmod_eq_emod (by omega) (by omega)]
      cases i with
      | zero =>
        simp only [build_daewon_aux, hstep, List.getD_cons_zero, daewon_expected,
          Pillar.mk.injEq]
        constructor <;> omega
      | succ j =>
        have hj : j < k := by omega
        have hrec := ih ((s + 1) % 10) ((b + 1) % 12)
          (Int.emod_nonneg _ (by omega)) (by omega)
          (Int.emod_nonneg _ (by omega)) (by omega) j hj
        simp only [build_daewon_aux, hstep, List.getD_cons_succ]
        rw [hrec]
        simp only [daewon_expected, Pillar.mk.injEq]
        constructor <;> omega
    | Backward =>
      have hstep : daewon_step Direction.Backward s b = ((s - 1) % 10, (b - 1) % 12) := rfl
      cases i with
      | zero =>
        simp only [build_daewon_aux, hstep, List.getD_cons_zero, daewon_expected,
          Pillar.mk.injEq]
        constructor <;> omega
      | succ j =>
        have hj : j < k := by omega
        have hrec := ih ((s - 1) % 10) ((b - 1) % 12)
          (Int.emod_nonneg _ (by omega)) (by omega)
          (Int.emod_nonneg _ (by omega)) (by omega) j hj
        simp only [build_daewon_aux, hstep, List.getD_cons_succ]
        rw [hrec]
        simp only [daewon_expected, Pillar.mk.injEq]
        constructor <;> omega

theorem min_fold_from_some :
    ∀ (l : List SolarTerm) (a : SolarTerm),
      ∃ m,
        l.foldl
          (fun acc t =>
            match acc with
            | none => some t
            | some mm => if t.jd < mm.jd then some t else some mm)
          (some a) = some m
        ∧ (m = a ∨ m ∈ l) ∧ m.jd ≤ a.jd ∧ ∀ x ∈ l, m.jd ≤ x.jd := by
  intro l
  induction l with
  | nil =>
    intro a
    exact ⟨a, rfl, Or.inl rfl, le_refl _, by simp⟩
  | cons t rest ih =>
    intro a
    rw [List.foldl_cons]
    by_cases hc : t.jd < a.jd
    · obtain ⟨m, hm, hmem, hle, hall⟩ := ih t
      refine ⟨m, ?_, ?_, ?_, ?_⟩
      · simpa [hc] using hm
      · rcases hmem with h | h
        · exact Or.inr (by simp [h])
        · exact Or.inr (by simp [h])
      · exact le_trans hle (le_of_lt hc)
      · intro x hx
        rcases List.mem_cons.mp hx with h | h
        · exact h ▸ hle
        · exact hall x h
    · obtain ⟨m, hm, hmem, hle, hall⟩ := ih a
      refine ⟨m, ?_, ?_, hle, ?_⟩
      · simpa [hc] using hm
      · rcases hmem with h | h
        · exact Or.inl h
        · exact Or.inr (by simp [h])
      · intro x hx
        rcases List.mem_cons.mp hx with h | h
        · subst h
          exact le_trans hle (not_lt.mp hc)
        · exact hall x h

theorem min_by_jd_spec (l : List SolarTerm) (hne : l ≠ []) :
    ∃ m, min_by_jd l = some m ∧ m ∈ l ∧ ∀ x ∈ l, m.jd ≤ x.jd := by
  cases l with
  | nil => exact absurd rfl hne
  | cons t rest =>
    obtain ⟨m, hm, hmem, hle, hall⟩ := min_fold_from_some rest t
    refine ⟨m, ?_, ?_, ?_⟩
    · simpa [min_by_jd, List.foldl_cons] using hm
    · rcases hmem with h | h
      · simp [h]
      · simp [h]
    · intro x hx
      rcases List.mem_cons.mp hx with h | h
      · exact h ▸ hle
      · exact hall x h

theorem max_fold_from_some :
    ∀ (l : List SolarTerm) (a : SolarTerm),
      ∃ m,
        l.foldl
          (fun acc t =>
            match acc with
            | none => some t
            | some mm => if mm.jd ≤ t.jd then some t else some mm)
          (some a) = some m
        ∧ (m = a ∨ m ∈ l) ∧ a.jd ≤ m.jd ∧ ∀ x ∈ l, x.jd ≤ m.jd := by
  intro l
  induction l with
  | nil =>
    intro a
    exact ⟨a, rfl, Or.inl rfl, le_refl _, by simp⟩
  | cons t rest ih =>
    intro a
    rw [List.foldl_cons]
    by_cases hc : a.jd ≤ t.jd
    · obtain ⟨m, hm, hmem, hle, hall⟩ := ih t
      refine ⟨m, ?_, ?_, ?_, ?_⟩
      · simpa [hc] using hm
      · rcases hmem with h | h
        · exact Or.inr (by simp [h])
        · exact Or.inr (by simp [h])
      · exact le_trans hc hle
      · intro x hx
        rcases List.mem_cons.mp hx with h | h
        · exact h ▸ hle
        · exact hall x h
    · obtain ⟨m, hm, hmem, hle, hall⟩ := ih a
      refine ⟨m, ?_, ?_, hle, ?_⟩
      · simpa [hc] using hm
      · rcases hmem with h | h
        · exact Or.inl h
        · exact Or.inr (by simp [h])
      · intro x hx
        rcases List.mem_cons.mp hx with h | h
        · subst h
          exact le_trans (le_of_lt (not_le.mp hc)) hle
        · exact hall x h

theorem max_by_jd_spec (l : List SolarTerm) (hne : l ≠ []) :
    ∃ m, max_by_jd l = some m ∧ m ∈ l ∧ ∀ x ∈ l, x.jd ≤ m.jd := by
  cases l with
  | nil => exact absurd rfl hne
  | cons t rest =>
    obtain ⟨m, hm, hmem, hle, hall⟩ := max_fold_from_some rest t
    refine ⟨m, ?_, ?_, ?_⟩
    · simpa [max_by_jd, List.foldl_cons] using hm
    · rcases hmem with h | h
      · simp [h]
      · simp [h]
    · intro x hx
      rcases List.mem_cons.mp hx with h | h
      · exact h ▸ hle
      · exact hall x h

theorem build_months_length (ys : Nat) :
    ∀ (prs : List (SolarTerm × SolarTerm)) (l : List MonthLuck),
      build_months ys prs = Except.ok l → l.length = prs.length := by
  intro prs
  induction prs with
  | nil =>
    intro l h
    simp only [build_months, Except.ok.injEq] at h
    subst h
    rfl
  | cons p rest ih =>
    intro l h
    obtain ⟨s, e⟩ := p
    simp only [build_months] at h
    cases hb : month_branch_from_term_key s.key with
    | none => rw [hb] at h; simp at h
    | some branch =>
      rw [hb] at h
      cases hm : build_months ys rest with
      | error msg => rw [hm] at h; simp at h
      | ok ms =>
        rw [hm] at h
        simp only [Except.ok.injEq] at h
        subst h
        simp [ih ms hm]

theorem build_months_mem (ys : Nat) :
    ∀ (prs : List (SolarTerm × SolarTerm)) (l : List MonthLuck),
      build_months ys prs = Except.ok l →
      ∀ m ∈ l, m.pillar.stem = month_stem_from_year ys m.branch
        ∧ m.pillar.branch = m.branch := by
  intro prs
  induction prs with
  | nil =>
    intro l h
    simp only [build_months, Except.ok.injEq] at h
    subst h
    simp
  | cons p rest ih =>
    intro l h
    obtain ⟨s, e⟩ := p
    simp only [build_months] at h
    cases hb : month_branch_from_term_key s.key with
    | none => rw [hb] at h; simp at h
    | some branch =>
      rw [hb] at h
      cases hm : build_months ys rest with
      | error msg => rw [hm] at h; simp at h
      | ok ms =>
        rw [hm] at h
        simp only [Except.ok.injEq] at h
        subst h
        intro m hm2
        rcases List.mem_cons.mp hm2 with rfl | hm3
        · exact ⟨rfl, rfl⟩
        · exact ih ms hm m hm3

theorem build_months_head (ys : Nat) (s e : SolarTerm)
    (rest : List (SolarTerm × SolarTerm)) (l : List MonthLuck)
    (h : build_months ys ((s, e) :: rest) = Except.ok l) :
    ∃ m0 ms, l = m0 :: ms ∧ m0.start_jd = s.jd := by
  simp only [build_months] at h
  cases hb : month_branch_from_term_key s.key with
  | none => rw [hb] at h; simp at h
  | some branch =>
    rw [hb] at h
    cases hm : build_months ys rest with
    | error msg => rw [hm] at h; simp at h
    | ok ms =>
      rw [hm] at h
      simp only [Except.ok.injEq] at h
      exact ⟨_, ms, h.symm, rfl⟩

theorem position_lichun_isSome :
    ∀ (l : List SolarTerm), (∃ e ∈ l, e.key = key_lichun) →
      (position_lichun l).isSome := by
  intro l
  induction l with
  | nil => rintro ⟨e, he, _⟩; simp at he
  | cons t rest ih =>
    rintro ⟨e, he, hk⟩
    simp only [position_lichun]
    by_cases hc : (t.key == key_lichun) = true
    · rw [if_pos hc]; rfl
    · rw [if_neg hc]
      rcases List.mem_cons.mp he with rfl | he2
      · exact absurd (by simp [hk]) hc
      · have := ih ⟨e, he2, hk⟩
        simpa using this

theorem position_lichun_spec :
    ∀ (l : List SolarTerm), l.Pairwise (fun a b => a.jd ≤ b.jd) →
      ∀ idx, position_lichun l = some idx →
        ∃ g rest2, l.drop idx = g :: rest2 ∧ g.key = key_lichun
          ∧ ∀ x ∈ l, x.key = key_lichun → g.jd ≤ x.jd := by
  intro l
  induction l with
  | nil => intro _ idx h; simp [position_lichun] at h
  | cons t rest ih =>
    intro hpw idx h
    simp only [position_lichun] at h
    by_cases hc : (t.key == key_lichun) = true
    · rw [if_pos hc] at h
      obtain rfl : idx = 0 := (Option.some.inj h).symm
      refine ⟨t, rest, rfl, by simpa using hc, ?_⟩
      intro x hx _
      rcases List.mem_cons.mp hx with rfl | hx2
      · exact le_refl _
      · exact (List.pairwise_cons.mp hpw).1 x hx2
    · rw [if_neg hc] at h
      cases hp : position_lichun rest with
      | none => rw [hp] at h; simp at h
      | some j =>
        rw [hp] at h
        simp at h
        obtain rfl : idx = j + 1 := by omega
        obtain ⟨g, rest2, hdrop, hk, hmin⟩ :=
          ih (List.pairwise_cons.mp hpw).2 j hp
        refine ⟨g, rest2, ?_, hk, ?_⟩
        · exact hdrop
        · intro x hx hkx
          rcases List.mem_cons.mp hx with rfl | hx2
          · exact absurd (by simp [hkx]) hc
          · exact hmin x hx2 hkx

theorem drop_leading_head (l : List SolarTerm) (lc : Rat)
    (hpw : l.Pairwise (fun a b => a.jd ≤ b.jd))
    (hlow : ∀ x ∈ l, lc ≤ x.jd)
    (e : SolarTerm) (he : e ∈ l) (hek : e.key = key_lichun) (hejd : e.jd = lc) :
    ∃ g rest2, drop_leading_non_lichun l = g :: rest2
      ∧ g.jd = lc ∧ g.key = key_lichun := by
  cases l with
  | nil => simp at he
  | cons t rest =>
    simp only [drop_leading_non_lichun]
    by_cases hc : (t.key == key_lichun) = true
    · rw [if_pos hc]
      refine ⟨t, rest, rfl, ?_, by simpa using hc⟩
      have h1 : lc ≤ t.jd := hlow t (by simp)
      have h2 : t.jd ≤ e.jd := by
        rcases List.mem_cons.mp he with rfl | he2
        · exact le_refl _
        · exact (List.pairwise_cons.mp hpw).1 e he2
      exact le_antisymm (hejd ▸ h2) h1
    · rw [if_neg hc]
      have hsome := position_lichun_isSome (t :: rest) ⟨e, he, hek⟩
      cases hp : position_lichun (t :: rest) with
      | none => rw [hp] at hsome; simp at hsome
      | some idx =>
        obtain ⟨g, rest2, hdrop, hk, hmin⟩ :=
          position_lichun_spec (t :: rest) hpw idx hp
        refine ⟨g, rest2, hdrop, ?_, hk⟩
        have hg_mem : g ∈ t :: rest := by
          have hgd : g ∈ (t :: rest).drop idx := by rw [hdrop]; simp
          exact List.mem_of_mem_drop hgd
        have h1 : lc ≤ g.jd := hlow g hg_mem
        have h2 : g.jd ≤ e.jd := hmin e he hek
        exact le_antisymm (hejd ▸ h2) h1

theorem find_lichun_mem (terms : List SolarTerm) (lc : Rat)
    (h : find_lichun terms = some lc) :
    ∃ e ∈ terms, e.key = key_lichun ∧ e.jd = lc := by
  simp only [find_lichun, Option.map_eq_some'] at h
  obtain ⟨e, he, hjd⟩ := h
  refine ⟨e, List.mem_of_find?_eq_some he, ?_, hjd⟩
  have := List.find?_some he
  simpa using this

theorem month_defs_pairwise (tc tn : List SolarTerm) (lc ln : Rat) :
    (month_defs_in_range tc tn lc ln).Pairwise (fun a b => a.jd ≤ b.jd) := by
  refine List.Pairwise.filter _ ?_
  refine List.Pairwise.imp ?_ (List.sorted_mergeSort ?_ ?_ _)
  · intro a b hab
    simpa using hab
  · intro a b c hab hbc
    simp only [decide_eq_true_eq] at *
    exact le_trans hab hbc
  · intro a b
    simpa using le_total a.jd b.jd

theorem month_defs_lower (tc tn : List SolarTerm) (lc ln : Rat) :
    ∀ x ∈ month_defs_in_range tc tn lc ln, lc ≤ x.jd ∧ x.jd ≤ ln := by
  intro x hx
  have := List.mem_filter.mp hx
  simpa using this.2

theorem month_defs_mem_of (tc tn : List SolarTerm) (lc ln : Rat) (e : SolarTerm)
    (he : e ∈ tc ++ tn) (hk : (month_branch_from_term_key e.key).isSome)
    (h1 : lc ≤ e.jd) (h2 : e.jd ≤ ln) :
    e ∈ month_defs_in_range tc tn lc ln := by
  apply List.mem_filter.mpr
  refine ⟨?_, by simp [h1, h2]⟩
  rw [List.mem_mergeSort]
  exact List.mem_filter.mpr ⟨he, by simpa using hk⟩

/-! ## Claim theorems -/

/-- Claim C4 (corrected): for the solar input date 1990-05-15 (local hour
10 is below 23, so no day shift applies), the day pillar computed by
`day_pillar_from_jdn (jdn_from_date 1990 5 15)` is NOT the spec scenario
value (2, 2). -/
theorem claim_C4_counterexample :
    day_pillar_from_jdn (jdn_from_date 1990 5 15) ≠ (2, 2) := by
  decide

/-- Claim C4 (amended): for the solar input date 1990-05-15 the computed
day pillar has indices (6, 4), i.e. stem Geng and branch Chen. -/
theorem claim_C4 :
    day_pillar_from_jdn (jdn_from_date 1990 5 15) = (6, 4) := by
  decide

/-- Claim C6: for every wall-clock hour below 24 and minute below 60,
`hour_branch_index` equals the integer-division formula
`((h·60 + m + 60) / 120) mod 12`, is constant on each 120-minute window
(the windows start at odd hours; the first is 23:00 to 00:59), and is zero
exactly on 23:00-23:59 and 00:00-00:59. -/
theorem claim_C6 (h m : Nat) (hh : h < 24) (hm : m < 60) :
    hour_branch_index h m = ((h * 60 + m + 60) / 120) % 12
    ∧ (∀ h2 m2, h2 < 24 → m2 < 60 →
        (h * 60 + m + 60) % 1440 / 120 = (h2 * 60 + m2 + 60) % 1440 / 120 →
        hour_branch_index h m = hour_branch_index h2 m2)
    ∧ (hour_branch_index h m = 0 ↔ h = 23 ∨ h = 0) := by
  have hwin : ∀ a, a < 24 → ∀ b, b < 60 →
      hour_branch_index a b = (a * 60 + b + 60) % 1440 / 120 := by decide
  have hzero : ∀ a, a < 24 → ∀ b, b < 60 →
      (hour_branch_index a b = 0 ↔ a = 23 ∨ a = 0) := by decide
  refine ⟨rfl, ?_, hzero h hh m hm⟩
  intro h2 m2 hh2 hm2 hw
  rw [hwin h hh m hm, hwin h2 hh2 m2 hm2, hw]

/-- Witness for claim C6 at the concrete inputs 23:30 and 00:15: both lie
in the wrap-around Rat window and the index is 0. -/
theorem claim_C6_witness :
    hour_branch_index 23 30 = ((23 * 60 + 30 + 60) / 120) % 12
    ∧ hour_branch_index 23 30 = hour_branch_index 0 15
    ∧ hour_branch_index 23 30 = 0 := by
  have h := claim_C6 23 30 (by decide) (by decide)
  exact ⟨h.1, h.2.1 0 15 (by decide) (by decide) (by decide), (h.2.2).mpr (Or.inl rfl)⟩

/-- Claim C7: the day pillar is 60-periodic in the Julian Day Number
(including negative values), and on any window of 60 consecutive JDNs it
is injective, so it maps consecutive JDNs bijectively onto the 60-element
sexagenary cycle. -/
theorem claim_C7 (jdn : Int) :
    day_pillar_from_jdn (jdn + 60) = day_pillar_from_jdn jdn
    ∧ ∀ a b : Nat, a < 60 → b < 60 →
        day_pillar_from_jdn (jdn + a) = day_pillar_from_jdn (jdn + b) → a = b := by
  constructor
  · simp only [day_pillar_from_jdn, Prod.mk.injEq]
    constructor <;> omega
  · intro a b ha hb hab
    simp only [day_pillar_from_jdn, Prod.mk.injEq] at hab
    omega

/-- Witness for claim C7 at jdn = -7: periodicity at a negative JDN, and
injectivity applied to offsets 3 and 3. -/
theorem claim_C7_witness :
    day_pillar_from_jdn (-7 + 60) = day_pillar_from_jdn (-7) ∧ (3 : Nat) = 3 := by
  have h := claim_C7 (-7)
  exact ⟨h.1, h.2 3 3 (by decide) (by decide) rfl⟩

/-- Claim C8: over all 25 element pairs, `relation` yields Officer exactly
when the target controls the day element, and Resource exactly when the
target generates the day element; in particular the final else branch
(Officer) coincides with target-controls-day. -/
theorem claim_C8 :
    ∀ d t : Element,
      (relation d t = Relation.Officer ↔ element_controls t = d)
      ∧ (relation d t = Relation.Resource ↔ element_generates t = d) := by
  intro d t
  cases d <;> cases t <;> exact ⟨by decide, by decide⟩

/-- Claim C10: the five per-element counts of `elements_count` always sum
to 8 (each of the four pillars contributes one stem element and one branch
element). -/
theorem claim_C10 (p0 p1 p2 p3 : Pillar) :
    (elements_count p0 p1 p2 p3).sum = 8 := by
  have hstep : ∀ (l : List Nat) (p : Pillar), l.length = 5 →
      ((bump (bump l (element_index (stem_element p.stem)))
          (element_index (branch_element p.branch))).sum = l.sum + 2
        ∧ (bump (bump l (element_index (stem_element p.stem)))
            (element_index (branch_element p.branch))).length = 5) := by
    intro l p hl
    have h1 : (bump l (element_index (stem_element p.stem))).sum = l.sum + 1 :=
      sum_bump l _ (by rw [hl]; exact element_index_lt _)
    have hl1 : (bump l (element_index (stem_element p.stem))).length = 5 := by
      rw [length_bump, hl]
    have h2 : (bump (bump l (element_index (stem_element p.stem)))
        (element_index (branch_element p.branch))).sum
        = (bump l (element_index (stem_element p.stem))).sum + 1 :=
      sum_bump _ _ (by rw [hl1]; exact element_index_lt _)
    refine ⟨by omega, by rw [length_bump, hl1]⟩
  simp only [elements_count, List.foldl_cons, List.foldl_nil]
  have h0 : (List.replicate 5 0 : List Nat).sum = 0 ∧
      (List.replicate 5 0 : List Nat).length = 5 := by simp
  have s1 := hstep (List.replicate 5 0) p0 h0.2
  have s2 := hstep _ p1 s1.2
  have s3 := hstep _ p2 s2.2
  have s4 := hstep _ p3 s3.2
  omega

theorem verdict_spec (total : Int) :
    ((if total ≥ 3 then StrengthVerdict.Strong
        else if total ≤ -3 then StrengthVerdict.Weak
        else StrengthVerdict.Neutral) = StrengthVerdict.Strong ↔ 3 ≤ total)
    ∧ ((if total ≥ 3 then StrengthVerdict.Strong
        else if total ≤ -3 then StrengthVerdict.Weak
        else StrengthVerdict.Neutral) = StrengthVerdict.Weak ↔ total ≤ -3)
    ∧ ((if total ≥ 3 then StrengthVerdict.Strong
        else if total ≤ -3 then StrengthVerdict.Weak
        else StrengthVerdict.Neutral) = StrengthVerdict.Neutral
        ↔ -3 < total ∧ total < 3) := by
  split_ifs with h1 h2
  · refine ⟨?_, ?_, ?_⟩ <;> simp_all <;> omega
  · refine ⟨?_, ?_, ?_⟩ <;> simp_all <;> omega
  · refine ⟨?_, ?_, ?_⟩ <;> simp_all <;> omega

/-- Claim C5: for all day stems below 10 and four pillars with stems below
10 and branches below 12, the strength result satisfies
total = stage_bonus + root_count + 2·support_stems + support_hidden
− 2·drain_stems − drain_hidden, the stage class is taken from the month
branch (the second pillar), the verdict thresholds are ≥ 3 Strong,
≤ −3 Weak, otherwise Neutral, and the four pillar stems (the day pillar
included) are partitioned between the support and drain stem counts. -/
theorem claim_C5 (day_stem : Nat) (p0 p1 p2 p3 : Pillar) (r : StrengthResult)
    (hds : day_stem < 10)
    (hs0 : p0.stem < 10) (hs1 : p1.stem < 10) (hs2 : p2.stem < 10) (hs3 : p3.stem < 10)
    (hb0 : p0.branch < 12) (hb1 : p1.branch < 12) (hb2 : p2.branch < 12) (hb3 : p3.branch < 12)
    (hr : assess_strength day_stem p0 p1 p2 p3 = r) :
    r.total = stage_bonus_of r.stage_class + (r.root_count : Int)
        + 2 * (r.support_stems : Int) + (r.support_hidden : Int)
        - 2 * (r.drain_stems : Int) - (r.drain_hidden : Int)
    ∧ r.stage_class = stage_strength_class (twelve_stage_index day_stem p1.branch)
    ∧ (r.verdict = StrengthVerdict.Strong ↔ 3 ≤ r.total)
    ∧ (r.verdict = StrengthVerdict.Weak ↔ r.total ≤ -3)
    ∧ (r.verdict = StrengthVerdict.Neutral ↔ -3 < r.total ∧ r.total < 3)
    ∧ r.support_stems + r.drain_stems = 4 := by
  subst hr
  refine ⟨?_, rfl, ?_, ?_, ?_, ?_⟩
  · dsimp only [assess_strength]
    ring
  · exact (verdict_spec ((assess_strength day_stem p0 p1 p2 p3).total)).1
  · exact (verdict_spec ((assess_strength day_stem p0 p1 p2 p3).total)).2.1
  · exact (verdict_spec ((assess_strength day_stem p0 p1 p2 p3).total)).2.2
  · dsimp only [assess_strength]
    simpa using countP_support_drain (stem_element day_stem) [p0, p1, p2, p3]

/-- Witness for claim C5 at day stem 2 with the four pillars of the
1990-05-15 scenario. -/
theorem claim_C5_witness :
    (assess_strength 2 ⟨6, 6⟩ ⟨2, 5⟩ ⟨2, 2⟩ ⟨4, 5⟩).support_stems
      + (assess_strength 2 ⟨6, 6⟩ ⟨2, 5⟩ ⟨2, 2⟩ ⟨4, 5⟩).drain_stems = 4
    ∧ ((assess_strength 2 ⟨6, 6⟩ ⟨2, 5⟩ ⟨2, 2⟩ ⟨4, 5⟩).verdict = StrengthVerdict.Strong
        ↔ 3 ≤ (assess_strength 2 ⟨6, 6⟩ ⟨2, 5⟩ ⟨2, 2⟩ ⟨4, 5⟩).total) := by
  have h := claim_C5 2 ⟨6, 6⟩ ⟨2, 5⟩ ⟨2, 2⟩ ⟨4, 5⟩
    (assess_strength 2 ⟨6, 6⟩ ⟨2, 5⟩ ⟨2, 2⟩ ⟨4, 5⟩)
    (by decide) (by decide) (by decide) (by decide) (by decide)
    (by decide) (by decide) (by decide) (by decide) rfl
  exact ⟨h.2.2.2.2.2, h.2.2.1⟩

/-- Claim C9: `build_daewon_pillars` returns exactly `count` pillars, the
i-th (0-indexed) being the month pillar stepped by i+1 — stem
(s ± (i+1)) mod 10 and branch (b ± (i+1)) mod 12 with Euclidean modulus,
plus for Forward and minus for Backward — so the unstepped month pillar
itself never appears as the first item. -/
theorem claim_C9 (month_pillar : Pillar) (direction : Direction) (count : Nat)
    (hs : month_pillar.stem < 10) (hb : month_pillar.branch < 12) :
    (build_daewon_pillars month_pillar direction count).length = count
    ∧ (∀ i, i < count →
        (build_daewon_pillars month_pillar direction count).getD i default
          = daewon_expected month_pillar direction i)
    ∧ (0 < count →
        (build_daewon_pillars month_pillar direction count).getD 0 default ≠ month_pillar) := by
  have hget : ∀ i, i < count →
      (build_daewon_pillars month_pillar direction count).getD i default
        = daewon_expected month_pillar direction i := by
    intro i hi
    have h := build_daewon_aux_getD direction count (month_pillar.stem : Int)
      (month_pillar.branch : Int) (by omega) (by omega) (by omega) (by omega) i hi
    simpa [build_daewon_pillars] using h
  refine ⟨build_daewon_aux_length direction count _ _, hget, ?_⟩
  intro hn heq
  rw [hget 0 hn] at heq
  have hst := congrArg Pillar.stem heq
  cases direction <;> simp only [daewon_expected] at hst <;> omega

/-- Claim C2 (counterexample): `daewon_start_months` does not restrict to
month-defining terms.  With birth JD 0 and the future terms Yushui (not
month-defining, jd 10) and Jingzhe (month-defining, jd 25), the code
returns round(10/3·12) = 40, not round(25/3·12) as the claim demands of
the nearest month-defining term. -/
theorem claim_C2_counterexample :
    daewon_start_months 0 [] [⟨key_yushui, 10⟩, ⟨key_jingzhe, 25⟩] [] Direction.Forward
      = some 40
    ∧ month_branch_from_term_key key_yushui = none
    ∧ month_branch_from_term_key key_jingzhe = some 3
    ∧ ((0 : Rat) < 10 ∧ (10 : Rat) < 25)
    ∧ (40 : Int) ≠ round (abs ((25 : Rat) - 0) / 3 * 12) := by
  refine ⟨?_, rfl, rfl, by norm_num, by norm_num [round_eq]⟩
  simp only [daewon_start_months]
  norm_num [min_by_jd, List.filter, round_eq]

/-- Claim C2 (amended): for every birth JD and direction, the decennial
onset is round(Δ/3·12) where Δ is the absolute day difference to the
nearest solar term of ANY kind (not only the twelve month-defining ones)
among the three years' terms — strictly future for Forward, strictly past
for Backward. -/
theorem claim_C2 (birth_jd : Rat) (terms_prev terms_curr terms_next : List SolarTerm)
    (direction : Direction) (t : SolarTerm)
    (ht : nearest_in_direction birth_jd direction
      (terms_prev ++ terms_curr ++ terms_next) t) :
    daewon_start_months birth_jd terms_prev terms_curr terms_next direction
      = some (round (abs (t.jd - birth_jd) / 3 * 12)) := by
  cases direction with
  | Forward =>
    obtain ⟨hmem, hlt, hmin⟩ := ht
    have hfil : t ∈ (terms_prev ++ terms_curr ++ terms_next).filter
        (fun u => decide (birth_jd < u.jd)) :=
      List.mem_filter.mpr ⟨hmem, by simpa using hlt⟩
    obtain ⟨m, hm, hmmem, hmall⟩ :=
      min_by_jd_spec _ (List.ne_nil_of_mem hfil)
    have hmfil := List.mem_filter.mp hmmem
    have hmlt : birth_jd < m.jd := by simpa using hmfil.2
    have h1 : t.jd ≤ m.jd := hmin m hmfil.1 hmlt
    have h2 : m.jd ≤ t.jd := hmall t hfil
    have heq : m.jd = t.jd := le_antisymm h2 h1
    simp only [daewon_start_months]
    rw [hm]
    simp [heq]
  | Backward =>
    obtain ⟨hmem, hlt, hmax⟩ := ht
    have hfil : t ∈ (terms_prev ++ terms_curr ++ terms_next).filter
        (fun u => decide (u.jd < birth_jd)) :=
      List.mem_filter.mpr ⟨hmem, by simpa using hlt⟩
    obtain ⟨m, hm, hmmem, hmall⟩ :=
      max_by_jd_spec _ (List.ne_nil_of_mem hfil)
    have hmfil := List.mem_filter.mp hmmem
    have hmlt : m.jd < birth_jd := by simpa using hmfil.2
    have h1 : m.jd ≤ t.jd := hmax m hmfil.1 hmlt
    have h2 : t.jd ≤ m.jd := hmall t hfil
    have heq : m.jd = t.jd := le_antisymm h1 h2
    simp only [daewon_start_months]
    rw [hm]
    simp [heq]

/-- Witness for claim C2 at birth JD 0, a single future term at jd 10,
Forward direction: the onset is round(10/3·12) = 40. -/
theorem claim_C2_witness :
    daewon_start_months 0 [] [⟨key_yushui, 10⟩] [] Direction.Forward = some 40 := by
  have h := claim_C2 0 [] [⟨key_yushui, 10⟩] [] Direction.Forward ⟨key_yushui, 10⟩
    ⟨by simp, by norm_num, by
      intro u hu hlt
      simp at hu
      subst hu
      exact le_refl _⟩
  rw [h]
  norm_num [round_eq]

/-- Witness for claim C9: month pillar (2, 5) stepped forward twice. -/
theorem claim_C9_witness :
    (build_daewon_pillars ⟨2, 5⟩ Direction.Forward 2).length = 2
    ∧ (build_daewon_pillars ⟨2, 5⟩ Direction.Forward 2).getD 0 default
        = daewon_expected ⟨2, 5⟩ Direction.Forward 0
    ∧ (build_daewon_pillars ⟨2, 5⟩ Direction.Forward 2).getD 0 default ≠ ⟨2, 5⟩ := by
  have h := claim_C9 ⟨2, 5⟩ Direction.Forward 2 (by decide) (by decide)
  exact ⟨h.1, h.2.1 0 (by decide), h.2.2 (by decide)⟩

/-- Claim C3: whenever `monthly_luck` succeeds it returns exactly 12 month
intervals, the first interval starting at the Lichun JD of year Y, with
every pillar stem equal to `month_stem(year_stem(Y), branch)` for that
interval's branch; and whenever fewer than 13 boundaries remain within the
Lichun-to-Lichun window after dropping leading non-Lichun terms, it
returns an error. -/
theorem claim_C3 (year : Int) (terms_curr terms_next : List SolarTerm) :
    (∀ r, monthly_luck year terms_curr terms_next = Except.ok r →
      r.months.length = 12
      ∧ (∃ lc, find_lichun terms_curr = some lc
          ∧ ∃ m0, r.months.head? = some m0 ∧ m0.start_jd = lc)
      ∧ ∀ m ∈ r.months,
          m.pillar.stem = month_stem_from_year (year_pillar year).1 m.branch
          ∧ m.pillar.branch = m.branch)
    ∧ (∀ lc ln, find_lichun terms_curr = some lc →
        find_lichun terms_next = some ln →
        (drop_leading_non_lichun (month_defs_in_range terms_curr terms_next lc ln)).length < 13 →
        ∃ msg, monthly_luck year terms_curr terms_next = Except.error msg) := by
  constructor
  · intro r hr
    cases hlc : find_lichun terms_curr with
    | none =>
      simp only [monthly_luck, hlc] at hr
      exact absurd hr (by simp)
    | some lc =>
      cases hln : find_lichun terms_next with
      | none =>
        simp only [monthly_luck, hlc, hln] at hr
        exact absurd hr (by simp)
      | some ln =>
        simp only [monthly_luck, hlc, hln] at hr
        by_cases hemp : (month_defs_in_range terms_curr terms_next lc ln).isEmpty = true
        · rw [if_pos hemp] at hr
          simp at hr
        · rw [if_neg hemp] at hr
          by_cases hlen :
              (drop_leading_non_lichun
                (month_defs_in_range terms_curr terms_next lc ln)).length < 13
          · rw [if_pos hlen] at hr
            simp at hr
          · rw [if_neg hlen] at hr
            have hne : month_defs_in_range terms_curr terms_next lc ln ≠ [] := by
              simpa [List.isEmpty_iff] using hemp
            obtain ⟨x0, hx0⟩ := List.exists_mem_of_ne_nil _ hne
            have hx0r := month_defs_lower terms_curr terms_next lc ln x0 hx0
            have hlcln : lc ≤ ln := le_trans hx0r.1 hx0r.2
            obtain ⟨e, he_mem, he_key, he_jd⟩ := find_lichun_mem terms_curr lc hlc
            have he_fil : e ∈ month_defs_in_range terms_curr terms_next lc ln := by
              refine month_defs_mem_of terms_curr terms_next lc ln e
                (List.mem_append_left _ he_mem) ?_ (by rw [he_jd]) (by rw [he_jd]; exact hlcln)
              rw [he_key]
              decide
            obtain ⟨g, rest2, hdrop_eq, hgjd, hgkey⟩ :=
              drop_leading_head (month_defs_in_range terms_curr terms_next lc ln) lc
                (month_defs_pairwise terms_curr terms_next lc ln)
                (fun x hx => (month_defs_lower terms_curr terms_next lc ln x hx).1)
                e he_fil he_key he_jd
            have hblen : 13 ≤ (g :: rest2).length := by
              rw [← hdrop_eq]
              omega
            cases rest2 with
            | nil => simp at hblen
            | cons b1 tl =>
              rw [hdrop_eq] at hr
              have hpairs : (((g :: b1 :: tl).zip (g :: b1 :: tl).tail).take 12)
                  = (g, b1) :: (((b1 :: tl).zip tl).take 11) := rfl
              rw [hpairs] at hr
              cases hbm : build_months (year_pillar year).1
                  ((g, b1) :: (((b1 :: tl).zip tl).take 11)) with
              | error msg => rw [hbm] at hr; simp at hr
              | ok months =>
                rw [hbm] at hr
                simp only [Except.ok.injEq] at hr
                subst hr
                refine ⟨?_, ⟨lc, rfl, ?_⟩, ?_⟩
                · have hl := build_months_length _ _ _ hbm
                  simp only [List.length_cons, List.length_take, List.length_zip,
                    List.length_tail] at hl ⊢
                  simp only [List.length_cons] at hblen
                  omega
                · obtain ⟨m0, ms, hm0, hstart⟩ := build_months_head _ _ _ _ _ hbm
                  refine ⟨m0, ?_, ?_⟩
                  · show months.head? = some m0
                    rw [hm0]
                    rfl
                  · rw [hstart, hgjd]
                · intro m hm
                  exact build_months_mem _ _ _ hbm m hm
  · intro lc ln hlc hln hshort
    simp only [monthly_luck, hlc, hln]
    by_cases hemp : (month_defs_in_range terms_curr terms_next lc ln).isEmpty = true
    · rw [if_pos hemp]
      exact ⟨_, rfl⟩
    · rw [if_neg hemp, if_pos hshort]
      exact ⟨_, rfl⟩

unseal List.merge List.mergeSort in
/-- Witness for claim C3 on a concrete 13-boundary configuration: the
result is a success with exactly 12 month intervals. -/
theorem claim_C3_witness :
    (monthly_luck 2024 witness_terms_curr witness_terms_next).toOption.map
      (fun r => r.months.length) = some 12 := by
  cases hr : monthly_luck 2024 witness_terms_curr witness_terms_next with
  | error msg =>
    have hok : (monthly_luck 2024 witness_terms_curr witness_terms_next).isOk = true := by
      decide
    rw [hr] at hok
    simp [Except.isOk, Except.toBool] at hok
  | ok r =>
    have h := (claim_C3 2024 witness_terms_curr witness_terms_next).1 r hr
    simp [Except.toOption, h.1]

end Saju
